import Mathlib

/-!
Shallow embedding of `urlap` (`src/lib.rs`), a reactive form-state helper.

The Rust code wraps two reactive cells, `values : RwSignal<T>` and
`errors : RwSignal<HashMap<String, Option<String>>>`, where `T` implements
the `FormStruct` trait (string-keyed `get`/`set`) and the external
`Validate` trait.  Reactive cells are modelled by explicit state passing on
a `FormState` record; the `HashMap` is modelled by an association list with
insert-overwrite semantics matching `HashMap::insert`; the validation
collaborator (`validator` crate) is modelled by a function returning
`Except ValidationErrors Unit`, whose `field_errors()` view is a list of
`(field, descriptor list)` pairs with distinct field keys (a `HashMap` in
Rust), each descriptor carrying an optional message.  Callback invocations
of `handle_submit` are returned explicitly as a list of arguments.
-/

/-- A single error descriptor from the validation collaborator
(`validator::ValidationError`): carries an optional human-readable message. -/
structure VError where
  message : Option String
deriving DecidableEq, Repr

/-- `validator::ValidationErrors` as seen through `field_errors()`: per
offending field, an ordered sequence of error descriptors.  Keys come from a
`HashMap`, so they are pairwise distinct; iteration order is the list order. -/
structure ValidationErrors where
  field_errors : List (String × List VError)
deriving DecidableEq, Repr

/-- The `FormStruct` trait bundled with the `Validate` and `Default` bounds
required by `impl Form<T>`: string-keyed get/set over the application's
form-value type, the validation collaborator, and `Default::default()`. -/
structure FormStruct (T : Type) where
  get : T → String → Option String
  set : T → String → String → T
  validate : T → Except ValidationErrors Unit
  dflt : T

/-- The error map `HashMap<String, Option<String>>`, as an association list
with distinct keys maintained by insert-overwrite. -/
def ErrorMap : Type := List (String × Option String)

instance : DecidableEq ErrorMap := by
  unfold ErrorMap; infer_instance

/-- `HashMap::insert`: overwrite the entry for `f` if present, else append. -/
def insertEM : ErrorMap → String → Option String → ErrorMap
  | [], f, v => [(f, v)]
  | (g, w) :: rest, f, v =>
      if g = f then (f, v) :: rest else (g, w) :: insertEM rest f v

/-- `HashMap::get`: the stored value for key `f`, if present. -/
def lookupEM : ErrorMap → String → Option (Option String)
  | [], _ => none
  | (g, w) :: rest, f => if g = f then some w else lookupEM rest f

/-- The set of keys present in the error map. -/
def keysEM (m : ErrorMap) : List String := m.map Prod.fst

/-- The state held by `Form<T>`: the two reactive cells. -/
structure FormState (T : Type) where
  values : T
  errors : ErrorMap

/-- `Form::new()`: default-constructed values, empty error map. -/
def Form.new {T : Type} (fs : FormStruct T) : FormState T :=
  { values := fs.dflt, errors := [] }

/-- `Form::with_initial_values(values)`: caller-supplied values, empty error map. -/
def Form.with_initial_values {T : Type} (values : T) : FormState T :=
  { values := values, errors := [] }

/-- `Form::value(field)`: the field's string representation,
`unwrap_or_default()` turning absence into the empty string. -/
def Form.value {T : Type} (fs : FormStruct T) (st : FormState T) (field : String) : String :=
  (fs.get st.values field).getD ""

/-- `Form::value_opt(field)`: the field's string representation, preserving absence. -/
def Form.value_opt {T : Type} (fs : FormStruct T) (st : FormState T) (field : String) :
    Option String :=
  fs.get st.values field

/-- `Form::set_field_value(field, value)`: programmatic update;
`None` is stored as the empty string (`value.unwrap_or_default()`). -/
def Form.set_field_value {T : Type} (fs : FormStruct T) (st : FormState T)
    (field : String) (value : Option String) : FormState T :=
  { st with values := fs.set st.values field (value.getD "") }

/-- `Form::error(field)`: `errors.get(&field).cloned().flatten()`. -/
def Form.error {T : Type} (_fs : FormStruct T) (st : FormState T) (field : String) :
    Option String :=
  (lookupEM st.errors field).join

/-- An `HtmlInputElement` as used by `handle_input`: its `name` attribute
and current `value`. -/
structure InputElement where
  name : String
  value : String
deriving DecidableEq, Repr

/-- The target of a DOM event: either a recognized `HtmlInputElement`
(where `dyn_into::<HtmlInputElement>()` succeeds) or some other element
(where it fails). -/
inductive EventTarget where
  | input (el : InputElement)
  | other
deriving DecidableEq, Repr

/-- A DOM change event: `ev.target()` may be absent. -/
structure Event where
  target : Option EventTarget
deriving DecidableEq, Repr

/-- `leptos::event_target_value(&ev)`: the current `value` of the event's
target input element (only meaningful when the target is an input element). -/
def event_target_value (ev : Event) : String :=
  match ev.target with
  | some (EventTarget.input el) => el.value
  | _ => ""

/-- The handler returned by `Form::handle_input()`: if the event's target
exists and is an `HtmlInputElement`, set the field named by its `name`
attribute to `event_target_value(&ev)`; otherwise do nothing. -/
def Form.handle_input {T : Type} (fs : FormStruct T) (st : FormState T) (ev : Event) :
    FormState T :=
  match ev.target with
  | some (EventTarget.input el) =>
      { st with values := fs.set st.values el.name (event_target_value ev) }
  | some EventTarget.other => st
  | none => st

/-- The inner `f_errors.iter().for_each` loop of `handle_submit`: for each
descriptor, insert `Some(message.unwrap_or_default())` under `field`. -/
def applyFieldErrors (em : ErrorMap) (field : String) : List VError → ErrorMap
  | [] => em
  | err :: rest =>
      applyFieldErrors (insertEM em field (some (err.message.getD ""))) field rest

/-- The outer `field_errors().iter().for_each` loop of `handle_submit`. -/
def applyErrors (em : ErrorMap) : List (String × List VError) → ErrorMap
  | [] => em
  | (field, f_errors) :: rest => applyErrors (applyFieldErrors em field f_errors) rest

/-- The handler returned by `Form::handle_submit(cb)`: after
`ev.prevent_default()`, validate the current values; on failure fold all
error descriptors into the error map and return without calling `cb`; on
success call `cb(values.get())`.  The second component lists the arguments
of the callback invocations performed. -/
def Form.handle_submit {T : Type} (fs : FormStruct T) (st : FormState T) :
    FormState T × List T :=
  match fs.validate st.values with
  | Except.error validation_err =>
      ({ st with errors := applyErrors st.errors validation_err.field_errors }, [])
  | Except.ok _ => (st, [st.values])

/-- One externally triggered operation on a form. -/
inductive Op where
  | setField (field : String) (value : Option String)
  | inputEv (ev : Event)
  | submit
deriving DecidableEq, Repr

/-- Execute one operation on the form state. -/
def runOp {T : Type} (fs : FormStruct T) (st : FormState T) : Op → FormState T
  | Op.setField f v => Form.set_field_value fs st f v
  | Op.inputEv ev => Form.handle_input fs st ev
  | Op.submit => (Form.handle_submit fs st).1

/-- Execute a sequence of operations on the form state. -/
def run {T : Type} (fs : FormStruct T) (st : FormState T) : List Op → FormState T
  | [] => st
  | op :: ops => run fs (runOp fs st op) ops

/-- All fields reported erroneous by failed submit-triggered validation
attempts during a run. -/
def submittedErrorFields {T : Type} (fs : FormStruct T) (st : FormState T) :
    List Op → List String
  | [] => []
  | op :: ops =>
      (match op with
       | Op.submit =>
           match fs.validate st.values with
           | Except.error verrs => verrs.field_errors.map Prod.fst
           | Except.ok _ => []
       | _ => []) ++ submittedErrorFields fs (runOp fs st op) ops

/-- The fields reported erroneous by the most recent submit-triggered
validation attempt of a run (`none` when no submit occurred; a successful
validation reports the empty list of fields). -/
def lastValidationFields {T : Type} (fs : FormStruct T) (st : FormState T) :
    List Op → Option (List String)
  | [] => none
  | op :: ops =>
      match lastValidationFields fs (runOp fs st op) ops with
      | some l => some l
      | none =>
          match op with
          | Op.submit =>
              match fs.validate st.values with
              | Except.error verrs => some (verrs.field_errors.map Prod.fst)
              | Except.ok _ => some []
          | _ => none

/-- The claim of C2, stated over a run from `Form::new`: every field with an
entry in the error map was reported erroneous by the most recent
submit-triggered validation attempt (so the map is empty when no submit
occurred). -/
def errorsOnlyFromLastValidation {T : Type} (fs : FormStruct T) (ops : List Op) : Prop :=
  ∀ f ∈ keysEM (run fs (Form.new fs) ops).errors,
    ∃ l, lastValidationFields fs (Form.new fs) ops = some l ∧ f ∈ l

/-! ## A concrete form-value instance for witnesses and counterexamples

An association-list record with overwrite-on-set, and a validation
collaborator flagging an empty `email` field with two descriptors (last one
wins) and an empty `username` field with a message-less descriptor. -/

/-- String-keyed lookup on the concrete record. -/
def getA : List (String × String) → String → Option String
  | [], _ => none
  | (g, w) :: rest, f => if g = f then some w else getA rest f

/-- String-keyed update on the concrete record: overwrite or append. -/
def setA : List (String × String) → String → String → List (String × String)
  | [], f, v => [(f, v)]
  | (g, w) :: rest, f, v =>
      if g = f then (f, v) :: rest else (g, w) :: setA rest f v

/-- A concrete validation collaborator: `email` must be nonempty (two
descriptors when violated), `username` must be nonempty (one message-less
descriptor when violated). -/
def testValidate (vs : List (String × String)) : Except ValidationErrors Unit :=
  let fes : List (String × List VError) :=
    (if (getA vs "email").getD "" = "" then
      [("email", [⟨some "required"⟩, ⟨some "invalid format"⟩])]
     else []) ++
    (if (getA vs "username").getD "" = "" then
      [("username", [⟨none⟩])]
     else [])
  if fes.isEmpty then Except.ok () else Except.error ⟨fes⟩

/-- The concrete `FormStruct` instance used for witnesses. -/
def testFS : FormStruct (List (String × String)) :=
  { get := getA, set := setA, validate := testValidate, dflt := [] }

/-- An operation sequence whose final submit succeeds while stale error
entries from the first failed submit persist. -/
def badOps : List Op :=
  [Op.submit,
   Op.setField "email" (some "a@b.c"),
   Op.setField "username" (some "alice"),
   Op.submit]

/-! ## Helper lemmas about the error-map operations -/

theorem lookupEM_insertEM_self (m : ErrorMap) (f : String) (v : Option String) :
    lookupEM (insertEM m f v) f = some v := by
  induction m with
  | nil => simp [insertEM, lookupEM]
  | cons p rest ih =>
    obtain ⟨g, w⟩ := p
    by_cases h : g = f
    · simp [insertEM, h, lookupEM]
    · simpa [insertEM, h, lookupEM] using ih

theorem keysEM_nil : keysEM [] = [] := rfl

theorem keysEM_cons (k : String) (w : Option String) (m : ErrorMap) :
    keysEM ((k, w) :: m) = k :: keysEM m := rfl

theorem lookupEM_insertEM_ne (m : ErrorMap) (f g : String) (v : Option String)
    (h : g ≠ f) : lookupEM (insertEM m f v) g = lookupEM m g := by
  induction m with
  | nil => simp [insertEM, lookupEM, Ne.symm h]
  | cons p rest ih =>
    obtain ⟨k, w⟩ := p
    by_cases hk : k = f
    · subst hk
      simp [insertEM, lookupEM, Ne.symm h]
    · simp only [insertEM, if_neg hk, lookupEM]
      rw [ih]

theorem insertEM_cons_self (k : String) (w v : Option String) (m : ErrorMap) :
    insertEM ((k, w) :: m) k v = (k, v) :: m := by
  simp [insertEM]

theorem insertEM_cons_ne (k f : String) (w v : Option String) (m : ErrorMap)
    (h : k ≠ f) : insertEM ((k, w) :: m) f v = (k, w) :: insertEM m f v := by
  simp [insertEM, h]

theorem mem_keysEM_insertEM (m : ErrorMap) (f : String) (v : Option String)
    (a : String) (h : a ∈ keysEM (insertEM m f v)) : a = f ∨ a ∈ keysEM m := by
  induction m with
  | nil =>
    left
    simpa [insertEM, keysEM] using h
  | cons p rest ih =>
    obtain ⟨k, w⟩ := p
    by_cases hk : k = f
    · subst hk
      rw [insertEM_cons_self, keysEM_cons] at h
      rw [keysEM_cons]
      rcases List.mem_cons.mp h with h1 | h2
      · exact Or.inl h1
      · exact Or.inr (List.mem_cons_of_mem _ h2)
    · rw [insertEM_cons_ne _ _ _ _ _ hk, keysEM_cons] at h
      rw [keysEM_cons]
      rcases List.mem_cons.mp h with h1 | h2
      · exact Or.inr (List.mem_cons.mpr (Or.inl h1))
      · rcases ih h2 with h3 | h4
        · exact Or.inl h3
        · exact Or.inr (List.mem_cons_of_mem _ h4)

theorem applyFieldErrors_lookup_ne (em : ErrorMap) (f g : String)
    (es : List VError) (h : g ≠ f) :
    lookupEM (applyFieldErrors em f es) g = lookupEM em g := by
  induction es generalizing em with
  | nil => rfl
  | cons e rest ih =>
    rw [applyFieldErrors, ih, lookupEM_insertEM_ne _ _ _ _ h]

theorem applyFieldErrors_lookup_self (em : ErrorMap) (f : String)
    (es : List VError) (h : es ≠ []) :
    lookupEM (applyFieldErrors em f es) f
      = es.getLast?.map (fun e => some (e.message.getD "")) := by
  induction es generalizing em with
  | nil => exact absurd rfl h
  | cons e rest ih =>
    cases rest with
    | nil =>
      simp [applyFieldErrors, lookupEM_insertEM_self]
    | cons e2 rest2 =>
      rw [applyFieldErrors, ih _ (by simp), List.getLast?_cons_cons]

theorem mem_keysEM_applyFieldErrors (em : ErrorMap) (f : String) (es : List VError)
    (a : String) (h : a ∈ keysEM (applyFieldErrors em f es)) :
    a = f ∨ a ∈ keysEM em := by
  induction es generalizing em with
  | nil => exact Or.inr h
  | cons e rest ih =>
    rw [applyFieldErrors] at h
    rcases ih _ h with h1 | h2
    · exact Or.inl h1
    · rcases mem_keysEM_insertEM _ _ _ _ h2 with h3 | h4
      · exact Or.inl h3
      · exact Or.inr h4

theorem applyErrors_lookup_not_mem (em : ErrorMap)
    (fes : List (String × List VError)) (f : String)
    (h : f ∉ fes.map Prod.fst) :
    lookupEM (applyErrors em fes) f = lookupEM em f := by
  induction fes generalizing em with
  | nil => rfl
  | cons p rest ih =>
    obtain ⟨g, es⟩ := p
    simp only [List.map_cons, List.mem_cons, not_or] at h
    rw [applyErrors, ih _ h.2, applyFieldErrors_lookup_ne _ _ _ _ h.1]

theorem applyErrors_lookup (em : ErrorMap) (fes : List (String × List VError))
    (f : String) (es : List VError)
    (hnd : (fes.map Prod.fst).Nodup) (hmem : (f, es) ∈ fes) (hne : es ≠ []) :
    lookupEM (applyErrors em fes) f
      = es.getLast?.map (fun e => some (e.message.getD "")) := by
  induction fes generalizing em with
  | nil => cases hmem
  | cons p rest ih =>
    obtain ⟨g, es'⟩ := p
    simp only [List.map_cons, List.nodup_cons] at hnd
    rw [applyErrors]
    rcases List.mem_cons.mp hmem with heq | hmem'
    · injection heq with hf hes
      subst hf
      subst hes
      rw [applyErrors_lookup_not_mem _ _ _ hnd.1]
      exact applyFieldErrors_lookup_self _ _ _ hne
    · exact ih _ hnd.2 hmem'

theorem mem_keysEM_applyErrors (em : ErrorMap) (fes : List (String × List VError))
    (a : String) (h : a ∈ keysEM (applyErrors em fes)) :
    a ∈ keysEM em ∨ a ∈ fes.map Prod.fst := by
  induction fes generalizing em with
  | nil => exact Or.inl h
  | cons p rest ih =>
    obtain ⟨g, es⟩ := p
    rw [applyErrors] at h
    rcases ih _ h with h1 | h2
    · rcases mem_keysEM_applyFieldErrors _ _ _ _ h1 with h3 | h4
      · exact Or.inr (by simp [h3])
      · exact Or.inl h4
    · exact Or.inr (by simp [h2])

/-! ## Frame lemmas for the handlers and the run-level key invariant -/

theorem errors_handle_input {T : Type} (fs : FormStruct T) (st : FormState T)
    (ev : Event) : (Form.handle_input fs st ev).errors = st.errors := by
  obtain ⟨t⟩ := ev
  cases t with
  | none => rfl
  | some tt => cases tt <;> rfl

theorem errors_set_field_value {T : Type} (fs : FormStruct T) (st : FormState T)
    (field : String) (v : Option String) :
    (Form.set_field_value fs st field v).errors = st.errors := rfl

theorem values_handle_submit {T : Type} (fs : FormStruct T) (st : FormState T) :
    (Form.handle_submit fs st).1.values = st.values := by
  unfold Form.handle_submit
  cases fs.validate st.values with
  | error e => rfl
  | ok u => rfl

theorem handle_submit_ok {T : Type} (fs : FormStruct T) (st : FormState T)
    (u : Unit) (hv : fs.validate st.values = Except.ok u) :
    Form.handle_submit fs st = (st, [st.values]) := by
  unfold Form.handle_submit
  rw [hv]

theorem handle_submit_error {T : Type} (fs : FormStruct T) (st : FormState T)
    (verrs : ValidationErrors) (hv : fs.validate st.values = Except.error verrs) :
    Form.handle_submit fs st
      = ({ st with errors := applyErrors st.errors verrs.field_errors }, []) := by
  unfold Form.handle_submit
  rw [hv]

theorem mem_keysEM_run {T : Type} (fs : FormStruct T) (st : FormState T)
    (ops : List Op) (f : String)
    (h : f ∈ keysEM (run fs st ops).errors) :
    f ∈ keysEM st.errors ∨ f ∈ submittedErrorFields fs st ops := by
  induction ops generalizing st with
  | nil => exact Or.inl h
  | cons op ops ih =>
    rw [run] at h
    cases op with
    | setField g v =>
      rcases ih _ h with h1 | h2
      · exact Or.inl h1
      · right
        simp only [submittedErrorFields, List.nil_append]
        exact h2
    | inputEv ev =>
      rcases ih _ h with h1 | h2
      · rw [show (runOp fs st (Op.inputEv ev)).errors = st.errors from
              errors_handle_input fs st ev] at h1
        exact Or.inl h1
      · right
        simp only [submittedErrorFields, List.nil_append]
        exact h2
    | submit =>
      rcases ih _ h with h1 | h2
      · cases hv : fs.validate st.values with
        | ok u =>
          rw [show (runOp fs st Op.submit).errors = st.errors from by
                rw [runOp, handle_submit_ok fs st u hv]] at h1
          exact Or.inl h1
        | error verrs =>
          rw [show (runOp fs st Op.submit).errors
                = applyErrors st.errors verrs.field_errors from by
                rw [runOp, handle_submit_error fs st verrs hv]] at h1
          rcases mem_keysEM_applyErrors _ _ _ h1 with h3 | h4
          · exact Or.inl h3
          · right
            simp only [submittedErrorFields, hv]
            exact List.mem_append.mpr (Or.inl h4)
      · right
        simp only [submittedErrorFields]
        exact List.mem_append.mpr (Or.inr h2)

/-! ## Laws of the concrete field-access collaborator -/

theorem getA_setA_self (vs : List (String × String)) (f v : String) :
    getA (setA vs f v) f = some v := by
  induction vs with
  | nil => simp [setA, getA]
  | cons p rest ih =>
    obtain ⟨g, w⟩ := p
    by_cases h : g = f
    · simp [setA, h, getA]
    · simpa [setA, h, getA] using ih

theorem getA_setA_ne (vs : List (String × String)) (f v g : String) (h : g ≠ f) :
    getA (setA vs f v) g = getA vs g := by
  induction vs with
  | nil => simp [setA, getA, Ne.symm h]
  | cons p rest ih =>
    obtain ⟨k, w⟩ := p
    by_cases hk : k = f
    · subst hk
      simp [setA, getA, Ne.symm h]
    · simp only [setA, if_neg hk, getA]
      rw [ih]

/-! ## The claims -/

/-- C1: for every form whose current values fail validation, the handler
returned by `handle_submit` does not invoke the callback, and for every
field reported with one or more validation errors the error-map entry for
that field afterwards holds the last error message produced for that field
in the validation collaborator's iteration order (earlier messages for the
same field in the same pass are overwritten, not accumulated). -/
theorem C1_submit_failure_last_message {T : Type} (fs : FormStruct T)
    (st : FormState T) (verrs : ValidationErrors)
    (hv : fs.validate st.values = Except.error verrs)
    (hnd : (verrs.field_errors.map Prod.fst).Nodup)
    (f : String) (es : List VError)
    (hmem : (f, es) ∈ verrs.field_errors) (hne : es ≠ []) :
    (Form.handle_submit fs st).2 = [] ∧
    lookupEM (Form.handle_submit fs st).1.errors f
      = es.getLast?.map (fun e => some (e.message.getD "")) := by
  rw [handle_submit_error fs st verrs hv]
  exact ⟨rfl, applyErrors_lookup _ _ _ _ hnd hmem hne⟩

/-- Witness for C1: submitting the empty form stores the second ("last")
of the two `email` descriptors and invokes no callback. -/
theorem C1_witness :
    (Form.handle_submit testFS (Form.new testFS)).2 = [] ∧
    lookupEM (Form.handle_submit testFS (Form.new testFS)).1.errors "email"
      = some (some "invalid format") := by
  have h := C1_submit_failure_last_message testFS (Form.new testFS)
    ⟨[("email", [⟨some "required"⟩, ⟨some "invalid format"⟩]),
      ("username", [⟨none⟩])]⟩ rfl (by decide) "email"
    [⟨some "required"⟩, ⟨some "invalid format"⟩] (by decide) (by decide)
  exact ⟨h.1, h.2.trans (by decide)⟩

/-- C2 as stated is false: after a failed submit, a field fix, and a second
(successful) submit, the error map still holds the entry from the first
failed validation attempt, although the most recent validation attempt
reported no erroneous field. -/
theorem C2_counterexample : ¬ errorsOnlyFromLastValidation testFS badOps := by
  intro h
  obtain ⟨l, hl, hmem⟩ := h "email" (by decide)
  have he : lastValidationFields testFS (Form.new testFS) badOps
      = some [] := by decide
  rw [he] at hl
  injection hl with hl2
  subst hl2
  exact List.not_mem_nil _ hmem

/-- C2 (amended): after any sequence of operations starting from `Form::new`,
the errors cell only contains entries for fields that were reported erroneous
by some (not necessarily the most recent) failed validation attempt triggered
by a submit during the run; in particular it is empty when no submit has
occurred. -/
theorem C2_amended_errors_from_submits {T : Type} (fs : FormStruct T)
    (ops : List Op) (f : String)
    (h : f ∈ keysEM (run fs (Form.new fs) ops).errors) :
    f ∈ submittedErrorFields fs (Form.new fs) ops := by
  rcases mem_keysEM_run fs (Form.new fs) ops f h with h1 | h2
  · exact absurd h1 (List.not_mem_nil f)
  · exact h2

/-- Witness for the amended C2: `email` is in the error map after `badOps`
and was indeed reported by a failed submit-triggered validation. -/
theorem C2_amended_witness :
    "email" ∈ submittedErrorFields testFS (Form.new testFS) badOps :=
  C2_amended_errors_from_submits testFS badOps "email" (by decide)

/-- C3: for every form whose current values pass validation, the handler
returned by `handle_submit` invokes the callback exactly once, with an
argument equal to (a clone of) the current values snapshot. -/
theorem C3_submit_success_callback {T : Type} (fs : FormStruct T)
    (st : FormState T) (u : Unit)
    (hv : fs.validate st.values = Except.ok u) :
    (Form.handle_submit fs st).2 = [st.values] := by
  rw [handle_submit_ok fs st u hv]

/-- Witness for C3: a form with nonempty `email` and `username` validates,
and the callback receives exactly the current values. -/
theorem C3_witness :
    (Form.handle_submit testFS
      (Form.with_initial_values [("email", "a"), ("username", "b")])).2
      = [[("email", "a"), ("username", "b")]] :=
  C3_submit_success_callback testFS
    (Form.with_initial_values [("email", "a"), ("username", "b")]) () rfl

/-- C4: for every form whose current values pass validation, the handler
returned by `handle_submit` leaves the error map exactly as it was before
the call (stale entries from a prior failed attempt are not cleared). -/
theorem C4_submit_success_errors_frame {T : Type} (fs : FormStruct T)
    (st : FormState T) (u : Unit)
    (hv : fs.validate st.values = Except.ok u) :
    (Form.handle_submit fs st).1.errors = st.errors := by
  rw [handle_submit_ok fs st u hv]

/-- Witness for C4: a successful submit on a state carrying a stale error
entry leaves that entry in place. -/
theorem C4_witness :
    (Form.handle_submit testFS
      { values := [("email", "a"), ("username", "b")],
        errors := [("email", some "invalid format")] }).1.errors
      = [("email", some "invalid format")] :=
  C4_submit_success_errors_frame testFS
    { values := [("email", "a"), ("username", "b")],
      errors := [("email", some "invalid format")] } () rfl

/-- C5: for every input-change event whose target is a recognized input
element with name `f` and current value `v`, the handler returned by
`handle_input` sets field `f` of the values record to `v` (so `value(f)`
subsequently yields `v`) and changes no other field, assuming the
application's field-access collaborator satisfies the get/set laws. -/
theorem C5_handle_input_updates_field {T : Type} (fs : FormStruct T)
    (st : FormState T) (f v : String)
    (hget : ∀ vs g w, fs.get (fs.set vs g w) g = some w)
    (hframe : ∀ vs g w g2, g2 ≠ g → fs.get (fs.set vs g w) g2 = fs.get vs g2) :
    Form.value fs (Form.handle_input fs st
      ⟨some (EventTarget.input ⟨f, v⟩)⟩) f = v ∧
    ∀ g, g ≠ f →
      Form.value_opt fs (Form.handle_input fs st
        ⟨some (EventTarget.input ⟨f, v⟩)⟩) g = Form.value_opt fs st g := by
  constructor
  · unfold Form.handle_input Form.value event_target_value
    simp [hget]
  · intro g hg
    unfold Form.handle_input Form.value_opt event_target_value
    simp [hframe _ _ _ _ hg]

/-- Witness for C5: the `username`/`alice` change event from the spec's
testable property, with `email` as the unchanged other field. -/
theorem C5_witness :
    Form.value testFS (Form.handle_input testFS (Form.new testFS)
      ⟨some (EventTarget.input ⟨"username", "alice"⟩)⟩) "username" = "alice" ∧
    Form.value_opt testFS (Form.handle_input testFS (Form.new testFS)
      ⟨some (EventTarget.input ⟨"username", "alice"⟩)⟩) "email"
      = Form.value_opt testFS (Form.new testFS) "email" := by
  have h := C5_handle_input_updates_field testFS (Form.new testFS)
    "username" "alice"
    (fun vs g w => getA_setA_self vs g w)
    (fun vs g w g2 hg => getA_setA_ne vs g w g2 hg)
  exact ⟨h.1, h.2 "email" (by decide)⟩

/-- C6: for every field name not present in the values record, `value`
yields the empty string and `value_opt` yields absence. -/
theorem C6_absent_field {T : Type} (fs : FormStruct T) (st : FormState T)
    (f : String) (h : fs.get st.values f = none) :
    Form.value fs st f = "" ∧ Form.value_opt fs st f = none := by
  unfold Form.value Form.value_opt
  rw [h]
  exact ⟨rfl, rfl⟩

/-- Witness for C6: the fresh form has no `missing` field. -/
theorem C6_witness :
    Form.value testFS (Form.new testFS) "missing" = "" ∧
    Form.value_opt testFS (Form.new testFS) "missing" = none :=
  C6_absent_field testFS (Form.new testFS) "missing" rfl

/-- C7: after `set_field_value(f, Some s)` the field holds `s`, and after
`set_field_value(f, None)` the field is stored as the empty string, assuming
the field-access collaborator's get/set law. -/
theorem C7_set_field_value_stores {T : Type} (fs : FormStruct T)
    (st : FormState T) (f s : String)
    (hget : ∀ vs g w, fs.get (fs.set vs g w) g = some w) :
    Form.value fs (Form.set_field_value fs st f (some s)) f = s ∧
    Form.value fs (Form.set_field_value fs st f none) f = "" := by
  unfold Form.value Form.set_field_value
  simp [hget]

/-- Witness for C7: the spec's `x`/`hello` example and the clearing case. -/
theorem C7_witness :
    Form.value testFS
      (Form.set_field_value testFS (Form.new testFS) "x" (some "hello")) "x"
      = "hello" ∧
    Form.value testFS
      (Form.set_field_value testFS (Form.new testFS) "x" none) "x" = "" :=
  C7_set_field_value_stores testFS (Form.new testFS) "x" "hello"
    (fun vs g w => getA_setA_self vs g w)

/-- C8: for every input-change event whose target is absent or is not a
recognized input element, the handler returned by `handle_input` leaves the
entire form state (values and errors) unchanged: the event is silently
discarded. -/
theorem C8_malformed_event_ignored {T : Type} (fs : FormStruct T)
    (st : FormState T) (ev : Event)
    (h : ev.target = none ∨ ev.target = some EventTarget.other) :
    Form.handle_input fs st ev = st := by
  obtain ⟨t⟩ := ev
  cases t with
  | none => rfl
  | some tt =>
    cases tt with
    | input el =>
      exfalso
      rcases h with h1 | h1 <;> simp at h1
    | other => rfl

/-- Witness for C8: both malformed shapes — missing target and non-input
target — leave the fresh form untouched. -/
theorem C8_witness :
    Form.handle_input testFS (Form.new testFS) ⟨none⟩ = Form.new testFS ∧
    Form.handle_input testFS (Form.new testFS) ⟨some EventTarget.other⟩
      = Form.new testFS :=
  ⟨C8_malformed_event_ignored testFS (Form.new testFS) ⟨none⟩ (Or.inl rfl),
   C8_malformed_event_ignored testFS (Form.new testFS)
     ⟨some EventTarget.other⟩ (Or.inr rfl)⟩

/-- C9: when the (last) validation error descriptor for a field carries no
message, the failure path of `handle_submit` stores `Some ""` as that
field's error-map entry, so `error(f)` afterwards yields `Some ""` rather
than absence. -/
theorem C9_missing_message_stored_empty {T : Type} (fs : FormStruct T)
    (st : FormState T) (verrs : ValidationErrors)
    (hv : fs.validate st.values = Except.error verrs)
    (hnd : (verrs.field_errors.map Prod.fst).Nodup)
    (f : String) (es : List VError)
    (hmem : (f, es) ∈ verrs.field_errors)
    (hlast : es.getLast? = some ⟨none⟩) :
    lookupEM (Form.handle_submit fs st).1.errors f = some (some "") ∧
    Form.error fs (Form.handle_submit fs st).1 f = some "" := by
  have hne : es ≠ [] := by
    intro he
    rw [he] at hlast
    simp at hlast
  rw [handle_submit_error fs st verrs hv]
  have h2 := applyErrors_lookup st.errors verrs.field_errors f es hnd hmem hne
  rw [hlast] at h2
  have h3 : lookupEM (applyErrors st.errors verrs.field_errors) f
      = some (some "") := by simpa using h2
  refine ⟨h3, ?_⟩
  unfold Form.error
  show (lookupEM (applyErrors st.errors verrs.field_errors) f).join = some ""
  rw [h3]
  rfl

/-- Witness for C9: the message-less `username` descriptor of the failing
fresh form is stored as `Some ""`. -/
theorem C9_witness :
    lookupEM (Form.handle_submit testFS (Form.new testFS)).1.errors "username"
      = some (some "") ∧
    Form.error testFS (Form.handle_submit testFS (Form.new testFS)).1 "username"
      = some "" :=
  C9_missing_message_stored_empty testFS (Form.new testFS)
    ⟨[("email", [⟨some "required"⟩, ⟨some "invalid format"⟩]),
      ("username", [⟨none⟩])]⟩ rfl (by decide) "username" [⟨none⟩]
    (by decide) (by decide)

/-- C10: `set_field_value` and the handler returned by `handle_input` never
modify the error map, and the handler returned by `handle_submit` never
modifies the values record: each state cell is mutated only by its
designated operations. -/
theorem C10_state_separation {T : Type} (fs : FormStruct T) (st : FormState T)
    (f : String) (v : Option String) (ev : Event) :
    (Form.set_field_value fs st f v).errors = st.errors ∧
    (Form.handle_input fs st ev).errors = st.errors ∧
    (Form.handle_submit fs st).1.values = st.values :=
  ⟨rfl, errors_handle_input fs st ev, values_handle_submit fs st⟩
